import Mathlib

/-!
Shallow embedding of `src/main.py` (ChatGPT export → Markdown converter).

Conventions of the embedding:
* Python dictionaries holding conversation data become Lean structures.
  A field read with `.get(key)` / `.get(key, default)` becomes an `Option`
  field (with the default applied at the use site); a field read by direct
  subscripting (`d[key]`) stays an `Option` field and the read becomes a
  fallible operation returning `Except PyErr`.
* A Python value tested for truthiness (`if message_data and ...`) that is a
  dict is modelled as an `Option` where `none` covers the absent, `None`,
  and empty-dict (falsy) cases.
* The conversation `mapping` dict is modelled as an association list
  `List (NodeId × Node)` in insertion order; Python dict lookup is
  `lookup?` (first match), and dict iteration order is the list order.
* Machine floats (`create_time` timestamps) are modelled as `Int`; only
  their linear order matters to the program.
* The unbounded `while` loop of the traversal is modelled with explicit
  fuel; a result of `none` means the fuel was exhausted (the loop did not
  finish within `fuel` iterations).
* File writes and `datetime` formatting are external effects: the main
  loop is parameterised by an oracle `writeOk : String → Bool` saying which
  file writes succeed, and by `dateStr : Int → String` standing for
  `datetime.fromtimestamp(t).strftime('%Y-%m-%d_%H-%M-%S')`.
-/

namespace ChatMD

/-- Python exceptions that the modelled code can raise: `KeyError` from a
direct dict subscript of a missing key, `TypeError` from
`datetime.fromtimestamp(None)`. -/
inductive PyErr where
  | keyError
  | typeError
  deriving DecidableEq, Repr

abbrev NodeId := String

/-- One entry of `message['content']['parts']`: a plain string, a dict
(with optional `content_type`, `language`, `text` keys), or any other
shape (handled by the final `return ''` of `format_message_part`). -/
inductive MsgPart where
  | ofString (s : String)
  | ofDict (content_type : Option String) (language : Option String) (text : Option String)
  | other
  deriving DecidableEq, Repr

/-- `message['author']`: a dict whose `role` key is read by direct
subscripting (absent key ⇒ `KeyError`). -/
structure Author where
  role : Option String
  deriving DecidableEq, Repr

/-- `message['content']`: `parts` is read with `.get('parts', [])`. -/
structure Content where
  parts : Option (List MsgPart)
  deriving DecidableEq, Repr

/-- `node['message']` when present and truthy. `author` and `create_time`
are read by direct subscripting, `content` with `.get`-style truthiness. -/
structure Message where
  author : Option Author
  content : Option Content
  create_time : Option Int
  deriving DecidableEq, Repr

/-- One entry of the conversation `mapping`. `id` is read by direct
subscripting in the fallback-root path (`sorted_nodes[0]['id']`);
`parent` via `node.get('parent')`; `children` via
`node.get('children', [])` (the default is applied here, so an absent
`children` key is the empty list); `message` via `node.get('message')`. -/
structure Node where
  id : Option NodeId
  parent : Option NodeId
  children : List NodeId
  message : Option Message
  deriving DecidableEq, Repr

/-- One conversation record of the archive. `mapping = none` models a
record with no (or a falsy) `mapping` key; the record itself being falsy
(`not convo_data`) is modelled by passing `none` at the call site. -/
structure Convo where
  title : Option String
  create_time : Option Int
  mapping : Option (List (NodeId × Node))
  deriving DecidableEq, Repr

/-! ### Python string primitives used by the code -/

/-- The whitespace set of Python's `str.strip()` (ASCII part). -/
def pySpace (c : Char) : Bool :=
  c = ' ' || c = '\t' || c = '\n' || c = '\x0d' || c = '\x0b' || c = '\x0c'

/-- Python `str.strip()`: drop leading and trailing whitespace. -/
def pyStrip (s : String) : String :=
  String.mk (((s.toList.dropWhile pySpace).reverse.dropWhile pySpace).reverse)

/-- Python `str.lower()` (ASCII). -/
def pyLower (s : String) : String :=
  String.mk (s.toList.map Char.toLower)

/-- Helper for `pyTitle`: the Boolean records whether the previous
character was a letter (cased), in which case the current letter is
lowercased, otherwise uppercased. -/
def pyTitleAux : Bool → List Char → List Char
  | _, [] => []
  | prevAlpha, c :: cs =>
    (if prevAlpha then c.toLower else c.toUpper) :: pyTitleAux c.isAlpha cs

/-- Python `str.title()` (ASCII): each word starts uppercase, remaining
letters lowercased. -/
def pyTitle (s : String) : String :=
  String.mk (pyTitleAux false s.toList)

/-! ### `sanitize_filename` -/

/-- The character class of the regex `[\\/*?:"<>|]` in `sanitize_filename`. -/
def illegalChars : List Char :=
  ['\\', '/', '*', '?', ':', '"', '<', '>', '|']

/-- `sanitize_filename`: remove illegal filename characters, replace
spaces with underscores, truncate to 100 characters. -/
def sanitize_filename (name : String) : String :=
  let sanitized := String.mk (name.toList.filter (fun c => !(illegalChars.contains c)))
  let sanitized2 := String.mk (sanitized.toList.map (fun c => if c = ' ' then '_' else c))
  String.mk (sanitized2.toList.take 100)

/-! ### `format_message_part` -/

/-- `format_message_part`: a plain string is returned verbatim; a dict
with `content_type == 'code'` is wrapped in a fenced block whose language
tag is the constant `python` (the part's own `language` field is read into
a local variable but never used); a dict with `content_type == 'text'`
yields its `text` (default `''`); anything else yields `''`. -/
def format_message_part : MsgPart → String
  | .ofString s => s
  | .ofDict ct _lang txt =>
    if ct = some "code" then
      "\n```python\n" ++ txt.getD "" ++ "\n```\n"
    else if ct = some "text" then
      txt.getD ""
    else ""
  | .other => ""

/-! ### The per-node body of the traversal loop -/

/-- `message_data['content'].get('parts', [])`, as used inside the loop
(only reached when `content` is truthy). -/
def partsOf (m : Message) : List MsgPart :=
  match m.content with
  | some c => c.parts.getD []
  | none => []

/-- `full_text = "".join(format_message_part(part) for part in content_parts)`. -/
def fullTextOf (m : Message) : String :=
  String.join ((partsOf m).map format_message_part)

/-- The body of the traversal loop for one node: the condition
`message_data and message_data.get('content') and
message_data['author']['role'] != 'system'` (note the direct subscripts of
`author` and `role`, raising `KeyError` when absent), then rendering and
the `full_text.strip()` blank check. Returns `ok none` when the node
contributes no block, `ok (some block)` when it appends a block. -/
def renderNode (node : Node) : Except PyErr (Option String) :=
  match node.message with
  | none => .ok none
  | some m =>
    match m.content with
    | none => .ok none
    | some _ =>
      match m.author with
      | none => .error .keyError
      | some a =>
        match a.role with
        | none => .error .keyError
        | some r =>
          if r = "system" then .ok none
          else
            let full_text := fullTextOf m
            if pyStrip full_text = "" then .ok none
            else .ok (some ("## " ++ pyTitle r ++ "\n\n" ++ full_text ++ "\n\n---\n\n"))

/-! ### The traversal loop -/

/-- Python dict lookup on the association list (first entry with the key). -/
def lookup? (mapping : List (NodeId × Node)) (k : NodeId) : Option Node :=
  (mapping.find? (fun kn => kn.1 == k)).map Prod.snd

/-- The `while current_node_id in mapping` loop, with explicit fuel.
`none` means the fuel ran out before the loop finished. Each iteration
renders the current node (possibly raising), then moves to the first
child if any, else breaks. -/
def traverse (mapping : List (NodeId × Node)) : Nat → NodeId → Option (Except PyErr (List String))
  | 0, _ => none
  | fuel + 1, cur =>
    match lookup? mapping cur with
    | none => some (.ok [])
    | some node =>
      match renderNode node with
      | .error e => some (.error e)
      | .ok b? =>
        match node.children with
        | [] => some (.ok b?.toList)
        | c :: _ =>
          match traverse mapping fuel c with
          | none => none
          | some (.error e) => some (.error e)
          | some (.ok rest) => some (.ok (b?.toList ++ rest))

/-- The sequence of node ids the loop visits (truncated at the fuel
bound): the main line obtained by repeatedly taking the first child. -/
def visitChain (mapping : List (NodeId × Node)) : Nat → NodeId → List NodeId
  | 0, _ => []
  | fuel + 1, cur =>
    match lookup? mapping cur with
    | none => []
    | some node =>
      match node.children with
      | [] => [cur]
      | c :: _ => cur :: visitChain mapping fuel c

/-- The block a visited node id contributes, if any (and none when the
node would raise — used only to state what successful traversals emit). -/
def blockOf (mapping : List (NodeId × Node)) (k : NodeId) : Option String :=
  match lookup? mapping k with
  | none => none
  | some n =>
    match renderNode n with
    | .ok b? => b?
    | .error _ => none

/-! ### Root selection -/

/-- The first scan: the first node (in mapping iteration order) whose
`node.get('parent') is None`. -/
def findRootByParent (mapping : List (NodeId × Node)) : Option NodeId :=
  (mapping.find? (fun kn => kn.2.parent.isNone)).map Prod.fst

/-- The generator `(node for node in mapping.values() if node.get('message'))`:
the nodes carrying a truthy `message`, in mapping order. -/
def msgNodes (mapping : List (NodeId × Node)) : List Node :=
  (mapping.map Prod.snd).filter (fun n => n.message.isSome)

/-- The sort key `lambda x: x['message']['create_time']`: a direct
subscript, raising `KeyError` when the message lacks `create_time`. -/
def keyTime (n : Node) : Except PyErr (Int × Node) :=
  match n.message with
  | some m =>
    match m.create_time with
    | some t => .ok (t, n)
    | none => .error .keyError
  | none => .error .keyError

/-- Left-to-right effectful map over a list in `Except` (Python's
`sorted` computes the key of every element before comparing). -/
def mapE (f : α → Except PyErr β) : List α → Except PyErr (List β)
  | [] => .ok []
  | x :: xs =>
    match f x with
    | .error e => .error e
    | .ok y =>
      match mapE f xs with
      | .error e => .error e
      | .ok ys => .ok (y :: ys)

/-- Stable insertion of a keyed element: it goes after all elements with
a key ≤ its own (Python's `sorted` is stable). -/
def insertSorted (x : Int × Node) : List (Int × Node) → List (Int × Node)
  | [] => [x]
  | y :: ys => if y.1 ≤ x.1 then y :: insertSorted x ys else x :: y :: ys

/-- Stable sort by timestamp key, modelling `sorted(..., key=...)`. -/
def sortByTime : List (Int × Node) → List (Int × Node)
  | [] => []
  | x :: xs => insertSorted x (sortByTime xs)

/-- The fallback root search: sort the message-bearing nodes by their
message's `create_time` and take `sorted_nodes[0]['id']` (a direct
subscript of the node's own `id` field). `ok none` means the sorted list
was empty (`return []` upstream). -/
def fallbackRoot (mapping : List (NodeId × Node)) : Except PyErr (Option NodeId) :=
  match mapE keyTime (msgNodes mapping) with
  | .error e => .error e
  | .ok keyed =>
    match sortByTime keyed with
    | [] => .ok none
    | (_, n) :: _ =>
      match n.id with
      | some i => .ok (some i)
      | none => .error .keyError

/-- Root selection of `get_conversation_messages`: the parent scan, then
the chronological fallback. -/
def selectRoot (mapping : List (NodeId × Node)) : Except PyErr (Option NodeId) :=
  match findRootByParent mapping with
  | some k => .ok (some k)
  | none => fallbackRoot mapping

/-- `get_conversation_messages`: guard on a falsy record or missing
`mapping`, select the root, then run the traversal loop (with fuel). -/
def get_conversation_messages (fuel : Nat) (convo_data : Option Convo) :
    Option (Except PyErr (List String)) :=
  match convo_data with
  | none => some (.ok [])
  | some c =>
    match c.mapping with
    | none => some (.ok [])
    | some mapping =>
      match selectRoot mapping with
      | .error e => some (.error e)
      | .ok none => some (.ok [])
      | .ok (some root) => traverse mapping fuel root

/-! ### The per-conversation loop of `main` -/

/-- `if title and title.lower() not in ["new chat", ""]`. -/
def titleUsable : Option String → Bool
  | none => false
  | some s => s ≠ "" && !(pyLower s == "new chat" || pyLower s == "")

/-- The filename computation of `main`. `dateStr` stands for
`datetime.fromtimestamp(·).strftime('%Y-%m-%d_%H-%M-%S')`;
`datetime.fromtimestamp(None)` raises `TypeError`. -/
def chooseFilename (dateStr : Int → String) (title : Option String)
    (create_time : Option Int) : Except PyErr String :=
  if titleUsable title then .ok (sanitize_filename (title.getD "") ++ ".md")
  else
    match create_time with
    | none => .error .typeError
    | some t => .ok ("conversation_" ++ dateStr t ++ ".md")

/-- What happened to one conversation record in the loop of `main`. -/
inductive Outcome where
  | skipped
  | written (filename : String)
  | writeFailed (filename : String)
  deriving DecidableEq, Repr

/-- The unguarded part of one loop iteration of `main`: compute the
filename (first, as in the source), extract the messages, and decide
whether to skip (`ok none`) or write a file (`ok (some filename)`).
Any `Except.error` here is an uncaught Python exception. `none` means the
traversal fuel ran out. -/
def recordStep (fuel : Nat) (dateStr : Int → String) (c : Convo) :
    Option (Except PyErr (Option String)) :=
  match chooseFilename dateStr c.title c.create_time with
  | .error e => some (.error e)
  | .ok filename =>
    match get_conversation_messages fuel (some c) with
    | none => none
    | some (.error e) => some (.error e)
    | some (.ok msgs) =>
      if msgs.isEmpty then some (.ok none) else some (.ok (some filename))

/-- One loop iteration of `main` including the guarded write: the
`try/except` around the file write turns a failed write (per the
`writeOk` oracle) into a reported `Outcome.writeFailed`, not an error. -/
def processConvo (fuel : Nat) (dateStr : Int → String) (writeOk : String → Bool)
    (c : Convo) : Option (Except PyErr Outcome) :=
  match recordStep fuel dateStr c with
  | none => none
  | some (.error e) => some (.error e)
  | some (.ok none) => some (.ok .skipped)
  | some (.ok (some filename)) =>
    if writeOk filename then some (.ok (.written filename))
    else some (.ok (.writeFailed filename))

/-- The `for convo in conversations` loop of `main`. The result pairs the
outcomes of the records processed before any uncaught exception with
`some e` if an exception aborted the loop (`none` if it ran to the end).
Files written before an abort remain written, hence the outcome prefix. -/
def mainLoop (fuel : Nat) (dateStr : Int → String) (writeOk : String → Bool) :
    List Convo → Option (List Outcome × Option PyErr)
  | [] => some ([], none)
  | c :: cs =>
    match processConvo fuel dateStr writeOk c with
    | none => none
    | some (.error e) => some ([], some e)
    | some (.ok o) =>
      match mainLoop fuel dateStr writeOk cs with
      | none => none
      | some (os, e?) => some (o :: os, e?)

/-- The success counter of `main`: one per written file. -/
def successCount (outs : List Outcome) : Nat :=
  (outs.filter (fun o => match o with | .written _ => true | _ => false)).length

/-! ### Reachability through `children` pointers (for stating P3) -/

/-- `Reaches mapping x y`: `y` is in the subtree of `x`, following any
(not just first) `children` pointers. -/
inductive Reaches (mapping : List (NodeId × Node)) : NodeId → NodeId → Prop
  | refl (x : NodeId) : Reaches mapping x x
  | step {x y c : NodeId} {n : Node} :
      Reaches mapping x y → (y, n) ∈ mapping → c ∈ n.children → Reaches mapping x c

/-! ### Concrete instances (used by witnesses and counterexamples) -/

/-- A user message with a single plain-string part. -/
def userMsg (s : String) (t : Int) : Message :=
  ⟨some ⟨some "user"⟩, some ⟨some [.ofString s]⟩, some t⟩

/-- A system-authored message with non-empty content. -/
def sysMsg : Message :=
  ⟨some ⟨some "system"⟩, some ⟨some [.ofString "sys info"]⟩, some 1⟩

/-- A user message whose rendered parts are whitespace only. -/
def blankMsg : Message :=
  ⟨some ⟨some "user"⟩, some ⟨some [.ofString "  \n "]⟩, some 1⟩

/-- A message with truthy content but no `author` key. -/
def noAuthorMsg : Message :=
  ⟨none, some ⟨some [.ofString "hi"]⟩, some 1⟩

def helloNode : Node := ⟨some "h", none, [], some (userMsg "Hello" 1)⟩

def sysNode : Node := ⟨some "s", none, [], some sysMsg⟩

def blankNode : Node := ⟨some "w", none, [], some blankMsg⟩

/-- Scenario A of the spec: a parentless root with one `user` child
saying `Hello`. -/
def scenarioA : Convo :=
  ⟨none, none, some
    [("root", ⟨some "root", none, ["m1"], none⟩),
     ("m1", ⟨some "m1", some "root", [], some (userMsg "Hello" 5)⟩)]⟩

/-- A mapping whose unique parentless node `rt` is not the first entry. -/
def c3map : List (NodeId × Node) :=
  [("x", ⟨some "x", some "rt", [], none⟩),
   ("rt", ⟨some "rt", none, ["x"], none⟩)]

/-- A malformed mapping where every node has a non-null parent; the
earliest message (timestamp 3) is on node `q`. -/
def c1map : List (NodeId × Node) :=
  [("p", ⟨some "p", some "q", ["q"], some (userMsg "second" 10)⟩),
   ("q", ⟨some "q", some "p", [], some (userMsg "first" 3)⟩)]

/-- A root with two children `a` (first) and `b` (second), each with a
further descendant. -/
def c4map : List (NodeId × Node) :=
  [("r", ⟨some "r", none, ["a", "b"], none⟩),
   ("a", ⟨some "a", some "r", ["a1"], some (userMsg "from A" 1)⟩),
   ("a1", ⟨some "a1", some "a", [], some (userMsg "from A1" 2)⟩),
   ("b", ⟨some "b", some "r", ["b1"], some (userMsg "from B" 3)⟩),
   ("b1", ⟨some "b1", some "b", [], some (userMsg "from B1" 4)⟩)]

/-- A positional tree labelling of `c4map`. -/
def c4label (k : NodeId) : List Nat :=
  if k = "r" then [] else if k = "a" then [0] else if k = "a1" then [0, 0]
  else if k = "b" then [1] else [1, 0]

/-- A depth-like measure on `c4map` decreasing along first-child edges. -/
def c4measure (k : NodeId) : Nat :=
  if k = "r" then 2 else if k = "a" then 1 else if k = "b" then 1 else 0

/-- A conversation whose only node has truthy content but no `author`:
extracting its messages raises `KeyError`. -/
def c2bad : Convo :=
  ⟨some "Bad", some 50, some [("r", ⟨some "r", none, [], some noAuthorMsg⟩)]⟩

/-- A well-formed conversation that yields one written file. -/
def c2good : Convo :=
  ⟨some "Good", some 60, some
    [("root", ⟨some "root", none, ["m1"], none⟩),
     ("m1", ⟨some "m1", some "root", [], some (userMsg "Hello" 5)⟩)]⟩

/-- A mapping whose main line visits a node with content but no author. -/
def c10map : List (NodeId × Node) :=
  [("r", ⟨some "r", none, ["m"], none⟩),
   ("m", ⟨some "m", some "r", [], some noAuthorMsg⟩)]

/-! ### Helper lemmas -/

theorem lookup_mem {mapping : List (NodeId × Node)} {k : NodeId} {n : Node}
    (h : lookup? mapping k = some n) : (k, n) ∈ mapping := by
  unfold lookup? at h
  cases hf : mapping.find? (fun kn => kn.1 == k) with
  | none => simp [hf] at h
  | some kn =>
    simp only [hf, Option.map_some'] at h
    have hm := List.mem_of_find?_eq_some hf
    have hp := List.find?_some hf
    obtain ⟨k', n'⟩ := kn
    have hk : k' = k := by simpa using hp
    have hn : n' = n := by simpa using h
    rw [← hk, ← hn]
    exact hm

theorem traverse_mono {mapping : List (NodeId × Node)} :
    ∀ {f₁ : Nat} {cur : NodeId} {r : Except PyErr (List String)} {f₂ : Nat},
      traverse mapping f₁ cur = some r → f₁ ≤ f₂ → traverse mapping f₂ cur = some r := by
  intro f₁
  induction f₁ with
  | zero => intro cur r f₂ h _; simp [traverse] at h
  | succ f ih =>
    intro cur r f₂ h hle
    obtain ⟨f₂', rfl⟩ : ∃ f₂', f₂ = f₂' + 1 :=
      ⟨f₂ - 1, by omega⟩
    have hle' : f ≤ f₂' := by omega
    simp only [traverse] at h ⊢
    cases hl : lookup? mapping cur with
    | none => simpa [hl] using (by simpa [hl] using h)
    | some node =>
      simp only [hl] at h ⊢
      cases hr : renderNode node with
      | error e => simpa [hr] using (by simpa [hr] using h)
      | ok b? =>
        simp only [hr] at h ⊢
        cases hc : node.children with
        | nil => simpa [hc] using (by simpa [hc] using h)
        | cons c cs =>
          simp only [hc] at h ⊢
          cases ht : traverse mapping f c with
          | none => rw [ht] at h; simp at h
          | some rest =>
            rw [ht] at h
            rw [ih ht hle']
            exact h

theorem blockOf_eq {mapping : List (NodeId × Node)} {k : NodeId} {n : Node}
    {b? : Option String} (hl : lookup? mapping k = some n)
    (hr : renderNode n = .ok b?) : blockOf mapping k = b? := by
  unfold blockOf
  simp only [hl, hr]

theorem traverse_eq_filterMap {mapping : List (NodeId × Node)} :
    ∀ {fuel : Nat} {cur : NodeId} {msgs : List String},
      traverse mapping fuel cur = some (.ok msgs) →
      msgs = (visitChain mapping fuel cur).filterMap (blockOf mapping) := by
  intro fuel
  induction fuel with
  | zero => intro cur msgs h; simp [traverse] at h
  | succ f ih =>
    intro cur msgs h
    simp only [traverse] at h
    simp only [visitChain]
    cases hl : lookup? mapping cur with
    | none =>
      simp only [hl] at h ⊢
      simp at h
      simpa using h
    | some node =>
      simp only [hl] at h ⊢
      cases hr : renderNode node with
      | error e => simp only [hr] at h; simp at h
      | ok b? =>
        simp only [hr] at h
        cases hc : node.children with
        | nil =>
          simp only [hc] at h ⊢
          simp at h
          rw [← h]
          cases b? <;> simp [blockOf_eq hl hr]
        | cons c cs =>
          simp only [hc] at h ⊢
          cases ht : traverse mapping f c with
          | none => simp only [ht] at h; simp at h
          | some rest =>
            simp only [ht] at h
            cases rest with
            | error e => simp at h
            | ok restMsgs =>
              simp at h
              have hrest := ih ht
              rw [← h, hrest]
              cases b? <;> simp [blockOf_eq hl hr]

theorem renderNode_eq_some_iff {n : Node} {b : String} :
    renderNode n = .ok (some b) ↔
      ∃ m r, n.message = some m ∧ m.content.isSome = true ∧
        m.author.bind Author.role = some r ∧ r ≠ "system" ∧
        pyStrip (fullTextOf m) ≠ "" ∧
        b = "## " ++ pyTitle r ++ "\n\n" ++ fullTextOf m ++ "\n\n---\n\n" := by
  unfold renderNode
  cases hm : n.message with
  | none => simp
  | some m =>
    cases hc : m.content with
    | none => simp [hc]
    | some c =>
      cases ha : m.author with
      | none => simp [ha, hc]
      | some a =>
        cases har : a.role with
        | none => simp [ha, har, hc]
        | some r₀ =>
          by_cases hsys : r₀ = "system"
          · simp [ha, har, hsys, hc]
          · by_cases hblank : pyStrip (fullTextOf m) = ""
            · simp [ha, har, hsys, hblank, hc]
            · simp [ha, har, hsys, hblank, hc]
              exact ⟨fun h => h.symm, fun h => h.symm⟩

theorem renderNode_error_iff {n : Node} {e : PyErr} :
    renderNode n = .error e ↔
      e = .keyError ∧ ∃ m, n.message = some m ∧ m.content.isSome = true ∧
        m.author.bind Author.role = none := by
  unfold renderNode
  cases hm : n.message with
  | none => simp
  | some m =>
    cases hc : m.content with
    | none => simp [hc]
    | some c =>
      cases ha : m.author with
      | none =>
        simp [ha, hc]
        exact ⟨fun h => h.symm, fun h => h.symm⟩
      | some a =>
        cases har : a.role with
        | none =>
          simp [ha, har, hc]
          exact ⟨fun h => h.symm, fun h => h.symm⟩
        | some r₀ =>
          by_cases hsys : r₀ = "system"
          · simp [ha, har, hsys, hc]
          · by_cases hblank : pyStrip (fullTextOf m) = ""
            · simp [ha, har, hsys, hblank, hc]
            · simp [ha, har, hsys, hblank, hc]

theorem traverse_error_of_bad_chain {mapping : List (NodeId × Node)} {k : NodeId} {n : Node}
    (hl : lookup? mapping k = some n) (hbad : renderNode n = .error .keyError) :
    ∀ {fuel : Nat} {root : NodeId}, k ∈ visitChain mapping fuel root →
      traverse mapping fuel root = some (.error .keyError) := by
  intro fuel
  induction fuel with
  | zero => intro root h; simp [visitChain] at h
  | succ f ih =>
    intro root hk
    simp only [visitChain] at hk
    simp only [traverse]
    cases hr : lookup? mapping root with
    | none => simp only [hr] at hk; simp at hk
    | some node =>
      simp only [hr] at hk ⊢
      cases hrn : renderNode node with
      | error e =>
        have he : e = .keyError := (renderNode_error_iff.mp hrn).1
        simp only [hrn, he]
      | ok b? =>
        simp only [hrn]
        cases hc : node.children with
        | nil =>
          simp only [hc] at hk
          simp at hk
          subst hk
          rw [hl] at hr
          injection hr with hr'
          subst hr'
          rw [hbad] at hrn
          cases hrn
        | cons c cs =>
          simp only [hc] at hk ⊢
          rcases List.mem_cons.mp hk with rfl | hk'
          · rw [hl] at hr
            injection hr with hr'
            subst hr'
            rw [hbad] at hrn
            cases hrn
          · simp only [ih hk']

theorem traverse_measure_aux {mapping : List (NodeId × Node)} {d : NodeId → Nat}
    (hd : ∀ kn ∈ mapping, ∀ c ∈ kn.2.children.take 1, d c < d kn.1) :
    ∀ (k : Nat) (start : NodeId), d start < k →
      (traverse mapping (d start + 1) start).isSome = true := by
  intro k
  induction k with
  | zero => intro start h; exact absurd h (Nat.not_lt_zero _)
  | succ k ih =>
    intro start hk
    simp only [traverse]
    cases hl : lookup? mapping start with
    | none => simp
    | some node =>
      simp only [hl]
      cases hrn : renderNode node with
      | error e => simp [hrn]
      | ok b? =>
        simp only [hrn]
        cases hc : node.children with
        | nil => simp
        | cons c cs =>
          have hcm : c ∈ node.children.take 1 := by rw [hc]; simp
          have hdc : d c < d start := hd _ (lookup_mem hl) c hcm
          have hs := ih c (by omega)
          obtain ⟨r, hr⟩ := Option.isSome_iff_exists.mp hs
          have hmono : traverse mapping (d start) c = some r :=
            traverse_mono hr (by omega)
          simp only [hmono]
          cases r <;> simp

theorem mem_insertSorted {x y : Int × Node} : ∀ {l : List (Int × Node)},
    y ∈ insertSorted x l ↔ y = x ∨ y ∈ l := by
  intro l
  induction l with
  | nil => simp [insertSorted]
  | cons z zs ih =>
    simp only [insertSorted]
    by_cases h : z.1 ≤ x.1
    · simp only [if_pos h, List.mem_cons, ih]
      tauto
    · simp only [if_neg h, List.mem_cons]

theorem pairwise_insertSorted {x : Int × Node} : ∀ {l : List (Int × Node)},
    l.Pairwise (fun a b => a.1 ≤ b.1) →
    (insertSorted x l).Pairwise (fun a b => a.1 ≤ b.1) := by
  intro l
  induction l with
  | nil => intro _; simp [insertSorted]
  | cons z zs ih =>
    intro hp
    rw [List.pairwise_cons] at hp
    obtain ⟨hz, hzs⟩ := hp
    simp only [insertSorted]
    by_cases h : z.1 ≤ x.1
    · rw [if_pos h, List.pairwise_cons]
      refine ⟨?_, ih hzs⟩
      intro y hy
      rcases mem_insertSorted.mp hy with rfl | hy'
      · exact h
      · exact hz y hy'
    · rw [if_neg h, List.pairwise_cons]
      have hx : x.1 ≤ z.1 := le_of_not_le h
      refine ⟨?_, ?_⟩
      · intro y hy
        rcases List.mem_cons.mp hy with rfl | hy'
        · exact hx
        · exact le_trans hx (hz y hy')
      · rw [List.pairwise_cons]
        exact ⟨hz, hzs⟩

theorem pairwise_sortByTime : ∀ (l : List (Int × Node)),
    (sortByTime l).Pairwise (fun a b => a.1 ≤ b.1)
  | [] => by simp [sortByTime]
  | x :: xs => by
    simp only [sortByTime]
    exact pairwise_insertSorted (pairwise_sortByTime xs)

theorem mem_sortByTime {y : Int × Node} : ∀ {l : List (Int × Node)},
    y ∈ sortByTime l ↔ y ∈ l := by
  intro l
  induction l with
  | nil => simp [sortByTime]
  | cons x xs ih =>
    simp only [sortByTime, mem_insertSorted, ih, List.mem_cons]

theorem sortByTime_head_min {l : List (Int × Node)} {hd : Int × Node}
    {tl : List (Int × Node)} (he : sortByTime l = hd :: tl) :
    hd ∈ l ∧ ∀ z ∈ l, hd.1 ≤ z.1 := by
  have hmem : hd ∈ l := by
    rw [← mem_sortByTime (l := l), he]
    exact List.mem_cons_self _ _
  refine ⟨hmem, ?_⟩
  intro z hz
  have hz' : z ∈ hd :: tl := by
    rw [← he]
    exact mem_sortByTime.mpr hz
  rcases List.mem_cons.mp hz' with rfl | hz''
  · exact le_refl _
  · have hp := pairwise_sortByTime l
    rw [he, List.pairwise_cons] at hp
    exact hp.1 z hz''

theorem mapE_ok_of_forall {α β : Type} {f : α → Except PyErr β} :
    ∀ {l : List α}, (∀ x ∈ l, ∃ y, f x = .ok y) →
      ∃ l', mapE f l = .ok l' ∧ l'.length = l.length ∧
        (∀ y ∈ l', ∃ x ∈ l, f x = .ok y) ∧
        (∀ x ∈ l, ∃ y ∈ l', f x = .ok y) := by
  intro l
  induction l with
  | nil => intro _; exact ⟨[], rfl, rfl, by simp, by simp⟩
  | cons x xs ih =>
    intro h
    obtain ⟨y, hy⟩ := h x (List.mem_cons_self _ _)
    obtain ⟨l', hl', hlen, hall, hall'⟩ := ih (fun z hz => h z (List.mem_cons_of_mem _ hz))
    refine ⟨y :: l', ?_, by simp [hlen], ?_, ?_⟩
    · simp only [mapE, hy, hl']
    · intro y' hy'
      rcases List.mem_cons.mp hy' with rfl | hy''
      · exact ⟨x, List.mem_cons_self _ _, hy⟩
      · obtain ⟨x', hx', hfx'⟩ := hall y' hy''
        exact ⟨x', List.mem_cons_of_mem _ hx', hfx'⟩
    · intro x' hx'
      rcases List.mem_cons.mp hx' with rfl | hx''
      · exact ⟨y, List.mem_cons_self _ _, hy⟩
      · obtain ⟨y', hy', hfy'⟩ := hall' x' hx''
        exact ⟨y', List.mem_cons_of_mem _ hy', hfy'⟩

theorem keyTime_ok {n : Node} {y : Int × Node} (h : keyTime n = .ok y) :
    y.2 = n ∧ ∃ m, n.message = some m ∧ m.create_time = some y.1 := by
  unfold keyTime at h
  cases hm : n.message with
  | none => simp only [hm] at h; cases h
  | some m =>
    cases hc : m.create_time with
    | none => simp only [hm, hc] at h; cases h
    | some t =>
      simp only [hm, hc] at h
      injection h with h'
      subst h'
      exact ⟨rfl, m, rfl, hc⟩

theorem mem_msgNodes {mapping : List (NodeId × Node)} {n : Node} :
    n ∈ msgNodes mapping ↔ (∃ k, (k, n) ∈ mapping) ∧ n.message.isSome = true := by
  unfold msgNodes
  rw [List.mem_filter]
  constructor
  · rintro ⟨hmem, hmsg⟩
    obtain ⟨kn, hkn, rfl⟩ := List.mem_map.mp hmem
    exact ⟨⟨kn.1, by simpa using hkn⟩, hmsg⟩
  · rintro ⟨⟨k, hk⟩, hmsg⟩
    exact ⟨List.mem_map.mpr ⟨(k, n), hk, rfl⟩, hmsg⟩

theorem findRootByParent_eq_none {mapping : List (NodeId × Node)}
    (h : ∀ kn ∈ mapping, kn.2.parent.isSome = true) :
    findRootByParent mapping = none := by
  unfold findRootByParent
  have hf : mapping.find? (fun kn => kn.2.parent.isNone) = none := by
    rw [List.find?_eq_none]
    intro kn hkn
    obtain ⟨v, hv⟩ := Option.isSome_iff_exists.mp (h kn hkn)
    simp [hv]
  rw [hf]
  rfl

theorem exists_mem_enumFrom {α : Type} {a : α} :
    ∀ {l : List α} (n : Nat), a ∈ l → ∃ i, (i, a) ∈ l.enumFrom n := by
  intro l
  induction l with
  | nil => intro n h; simp at h
  | cons x xs ih =>
    intro n h
    rcases List.mem_cons.mp h with rfl | h'
    · exact ⟨n, by simp [List.enumFrom]⟩
    · obtain ⟨i, hi⟩ := ih (n + 1) h'
      refine ⟨i, ?_⟩
      simp only [List.enumFrom]
      exact List.mem_cons_of_mem _ hi

theorem visitChain_label {mapping : List (NodeId × Node)} {L : NodeId → List Nat}
    (hL : ∀ kn ∈ mapping, ∀ ic ∈ kn.2.children.enum, L ic.2 = L kn.1 ++ [ic.1]) :
    ∀ {fuel : Nat} {cur x : NodeId}, x ∈ visitChain mapping fuel cur →
      ∃ r, L x = L cur ++ r := by
  intro fuel
  induction fuel with
  | zero => intro cur x h; simp [visitChain] at h
  | succ f ih =>
    intro cur x h
    simp only [visitChain] at h
    cases hl : lookup? mapping cur with
    | none => simp only [hl] at h; simp at h
    | some node =>
      simp only [hl] at h
      cases hc : node.children with
      | nil =>
        simp only [hc] at h
        simp at h
        subst h
        exact ⟨[], by simp⟩
      | cons c cs =>
        simp only [hc] at h
        rcases List.mem_cons.mp h with rfl | h'
        · exact ⟨[], by simp⟩
        · have h0 : (0, c) ∈ node.children.enum := by
            rw [hc]
            simp [List.enum, List.enumFrom]
          have hlc : L c = L cur ++ [0] := hL (cur, node) (lookup_mem hl) (0, c) h0
          obtain ⟨r, hr⟩ := ih h'
          refine ⟨0 :: r, ?_⟩
          rw [hr, hlc, List.append_assoc]
          rfl

theorem reaches_label {mapping : List (NodeId × Node)} {L : NodeId → List Nat}
    (hL : ∀ kn ∈ mapping, ∀ ic ∈ kn.2.children.enum, L ic.2 = L kn.1 ++ [ic.1])
    {x y : NodeId} (h : Reaches mapping x y) : ∃ r, L y = L x ++ r := by
  induction h with
  | refl => exact ⟨[], by simp⟩
  | step hxy hmem hc ih =>
    obtain ⟨r, hr⟩ := ih
    obtain ⟨i, hi⟩ := exists_mem_enumFrom 0 hc
    have hlc := hL _ hmem (i, _) (by simpa [List.enum] using hi)
    refine ⟨r ++ [i], ?_⟩
    rw [hlc, hr, List.append_assoc]

/-! ### Claim theorems -/

/-- C6 (fixed code-fence tag): for every structured part with
`content_type = "code"`, `format_message_part` wraps the part's text in a
fenced block whose language tag is the fixed string `python`, independent
of the part's own `language` field; in particular the text `print(1)`
renders as the fixed fence around `print(1)` for every value of
`language`. -/
theorem C6_fixed_code_fence :
    (∀ (lang txt : Option String),
      format_message_part (.ofDict (some "code") lang txt) =
        "\n```python\n" ++ txt.getD "" ++ "\n```\n") ∧
    (∀ lang : Option String,
      format_message_part (.ofDict (some "code") lang (some "print(1)")) =
        "\n```python\nprint(1)\n```\n") := by
  constructor
  · intro lang txt; rfl
  · intro lang; rfl

/-- C3 (root selection): if exactly one entry of the mapping has an
absent/null `parent`, `get_conversation_messages`' first scan selects
that entry's key as root, for every iteration order (every permutation)
of the mapping. -/
theorem C3_root_selection (mapping : List (NodeId × Node)) (k₀ : NodeId) (n₀ : Node)
    (hmem : (k₀, n₀) ∈ mapping) (hroot : n₀.parent = none)
    (huniq : ∀ kn ∈ mapping, kn.2.parent = none → kn = (k₀, n₀)) :
    ∀ l : List (NodeId × Node), l.Perm mapping →
      findRootByParent l = some k₀ ∧ selectRoot l = .ok (some k₀) := by
  intro l hperm
  have hmem' : (k₀, n₀) ∈ l := hperm.mem_iff.mpr hmem
  have hfr : findRootByParent l = some k₀ := by
    unfold findRootByParent
    cases hf : l.find? (fun kn => kn.2.parent.isNone) with
    | none =>
      exfalso
      have := List.find?_eq_none.mp hf (k₀, n₀) hmem'
      simp [hroot] at this
    | some kn =>
      have h1 := List.find?_some hf
      have h2 : kn ∈ mapping := hperm.mem_iff.mp (List.mem_of_find?_eq_some hf)
      have h4 : kn = (k₀, n₀) := huniq kn h2 (by simpa using h1)
      simp [h4]
  refine ⟨hfr, ?_⟩
  unfold selectRoot
  simp only [hfr]

/-- Witness for C3: in `c3map` the unique parentless node is `rt` (the
second entry); it is selected as root both in the given order and in the
reversed iteration order. -/
theorem C3_root_selection_witness :
    (findRootByParent c3map = some "rt" ∧ selectRoot c3map = .ok (some "rt")) ∧
    (findRootByParent c3map.reverse = some "rt" ∧
      selectRoot c3map.reverse = .ok (some "rt")) := by
  have h := C3_root_selection c3map "rt" ⟨some "rt", none, ["x"], none⟩
    (by simp [c3map]) rfl (by decide)
  exact ⟨h c3map (List.Perm.refl _), h c3map.reverse (List.reverse_perm _)⟩

/-- C5 (block emission filter): a visited node contributes a block iff it
has a (truthy) message whose content is truthy, whose author role is not
`system`, and whose concatenated rendered parts are non-blank after
stripping; in particular a system-authored node never produces a block
even with non-empty content, and a node whose rendered parts are
whitespace-only produces none. -/
theorem C5_block_emission (n : Node) :
    ((∃ b, renderNode n = .ok (some b)) ↔
      (∃ m r, n.message = some m ∧ m.content.isSome = true ∧
        m.author.bind Author.role = some r ∧ r ≠ "system" ∧
        pyStrip (fullTextOf m) ≠ "")) ∧
    (∀ m, n.message = some m → m.author.bind Author.role = some "system" →
      renderNode n = .ok none) ∧
    (∀ m, n.message = some m → pyStrip (fullTextOf m) = "" →
      ∀ b, renderNode n ≠ .ok (some b)) := by
  refine ⟨⟨?_, ?_⟩, ?_, ?_⟩
  · rintro ⟨b, hb⟩
    obtain ⟨m, r, hm, hc, hr, hsys, hblank, _⟩ := renderNode_eq_some_iff.mp hb
    exact ⟨m, r, hm, hc, hr, hsys, hblank⟩
  · rintro ⟨m, r, hm, hc, hr, hsys, hblank⟩
    exact ⟨_, renderNode_eq_some_iff.mpr ⟨m, r, hm, hc, hr, hsys, hblank, rfl⟩⟩
  · intro m hm hrole
    cases hrn : renderNode n with
    | error e =>
      obtain ⟨_, m', hm', _, hnone⟩ := renderNode_error_iff.mp hrn
      rw [hm] at hm'
      cases hm'
      rw [hrole] at hnone
      cases hnone
    | ok b? =>
      cases b? with
      | none => rfl
      | some b =>
        obtain ⟨m', r, hm', _, hr, hsys, _, _⟩ := renderNode_eq_some_iff.mp hrn
        rw [hm] at hm'
        cases hm'
        rw [hrole] at hr
        cases hr
        exact absurd rfl hsys
  · intro m hm hblank b hb
    obtain ⟨m', _, hm', _, _, _, hblank', _⟩ := renderNode_eq_some_iff.mp hb
    rw [hm] at hm'
    cases hm'
    exact hblank' hblank

/-- Witness for C5: the user node saying `Hello` emits a block; the
system node and the whitespace-only node do not. -/
theorem C5_block_emission_witness :
    (∃ b, renderNode helloNode = .ok (some b)) ∧
    renderNode sysNode = .ok none ∧
    ∀ b, renderNode blankNode ≠ .ok (some b) :=
  ⟨(C5_block_emission helloNode).1.mpr
    ⟨userMsg "Hello" 1, "user", rfl, rfl, rfl, by decide, by decide⟩,
   (C5_block_emission sysNode).2.1 sysMsg rfl rfl,
   (C5_block_emission blankNode).2.2 blankMsg rfl (by decide)⟩

/-- C7 (block template): every emitted block has the exact shape
`## {Role}\n\n{concatenated parts}\n\n---\n\n` with `{Role}` the
title-cased author role, and on Scenario A's mapping the single output
block is exactly `## User\n\nHello\n\n---\n\n`. -/
theorem C7_block_template :
    (∀ (n : Node) (b : String), renderNode n = .ok (some b) →
      ∃ m r, n.message = some m ∧ m.author.bind Author.role = some r ∧
        b = "## " ++ pyTitle r ++ "\n\n" ++ fullTextOf m ++ "\n\n---\n\n") ∧
    get_conversation_messages 3 (some scenarioA) =
      some (.ok ["## User\n\nHello\n\n---\n\n"]) := by
  constructor
  · intro n b hb
    obtain ⟨m, r, hm, _, hr, _, _, hb'⟩ := renderNode_eq_some_iff.mp hb
    exact ⟨m, r, hm, hr, hb'⟩
  · rfl

/-- Witness for C7: the `Hello` node's block instantiates the template. -/
theorem C7_block_template_witness :
    ∃ m r, helloNode.message = some m ∧ m.author.bind Author.role = some r ∧
      "## User\n\nHello\n\n---\n\n" =
        "## " ++ pyTitle r ++ "\n\n" ++ fullTextOf m ++ "\n\n---\n\n" :=
  C7_block_template.1 helloNode "## User\n\nHello\n\n---\n\n" rfl

/-- C8 (filename policy): with a usable title (present, not a
case-insensitive match of the empty string or `new chat`) the filename is
the sanitized title plus `.md`; otherwise — including a title reading
`new chat` in any letter case — it is `conversation_` plus the formatted
`create_time` plus `.md`. -/
theorem C8_filename_policy (dateStr : Int → String) :
    (∀ (s : String) (ct : Option Int),
      s ≠ "" → pyLower s ≠ "new chat" → pyLower s ≠ "" →
      chooseFilename dateStr (some s) ct = .ok (sanitize_filename s ++ ".md")) ∧
    (∀ t : Int,
      chooseFilename dateStr none (some t) = .ok ("conversation_" ++ dateStr t ++ ".md")) ∧
    (∀ (s : String) (t : Int),
      (s = "" ∨ pyLower s = "new chat" ∨ pyLower s = "") →
      chooseFilename dateStr (some s) (some t) =
        .ok ("conversation_" ++ dateStr t ++ ".md")) := by
  refine ⟨?_, ?_, ?_⟩
  · intro s ct h1 h2 h3
    have : titleUsable (some s) = true := by
      simp [titleUsable, h1, h2, h3]
    simp [chooseFilename, this]
  · intro t
    simp [chooseFilename, titleUsable]
  · intro s t h
    have : titleUsable (some s) = false := by
      rcases h with h | h | h <;> simp [titleUsable, h]
    simp [chooseFilename, this]

/-- Witness for C8: the title `My Chat?` is sanitized to `My_Chat.md`;
the titles `New CHAT` and `none` fall back to the timestamp pattern. -/
theorem C8_filename_policy_witness :
    chooseFilename (fun _ => "2023-09-01_10-00-00") (some "My Chat?") (some 42) =
      .ok ("My_Chat.md") ∧
    chooseFilename (fun _ => "2023-09-01_10-00-00") (some "New CHAT") (some 42) =
      .ok ("conversation_2023-09-01_10-00-00.md") ∧
    chooseFilename (fun _ => "2023-09-01_10-00-00") none (some 42) =
      .ok ("conversation_2023-09-01_10-00-00.md") := by
  refine ⟨?_, ?_, ?_⟩
  · have h := (C8_filename_policy (fun _ => "2023-09-01_10-00-00")).1 "My Chat?" (some 42)
      (by decide) (by decide) (by decide)
    simpa using h
  · exact (C8_filename_policy (fun _ => "2023-09-01_10-00-00")).2.2 "New CHAT" 42
      (Or.inr (Or.inl (by decide)))
  · exact (C8_filename_policy (fun _ => "2023-09-01_10-00-00")).2.1 42

/-- C9 (termination on well-formed input): if the first-child pointers of
the mapping admit a decreasing measure (as any acyclic tree structure
does), the traversal loop terminates: some fuel bound suffices and the
result is stable for every larger fuel. -/
theorem C9_termination (mapping : List (NodeId × Node)) (start : NodeId) (d : NodeId → Nat)
    (hd : ∀ kn ∈ mapping, ∀ c ∈ kn.2.children.take 1, d c < d kn.1) :
    ∃ N, (traverse mapping N start).isSome = true ∧
      ∀ f, N ≤ f → traverse mapping f start = traverse mapping N start := by
  have hs := traverse_measure_aux hd (d start + 1) start (by omega)
  obtain ⟨r, hr⟩ := Option.isSome_iff_exists.mp hs
  refine ⟨d start + 1, hs, ?_⟩
  intro f hf
  rw [hr, traverse_mono hr hf]

/-- Witness for C9: the five-node tree `c4map` with the concrete measure
`c4measure` satisfies the decrease hypothesis, so its traversal from `r`
terminates. -/
theorem C9_termination_witness :
    (∀ kn ∈ c4map, ∀ c ∈ kn.2.children.take 1, c4measure c < c4measure kn.1) ∧
    ∃ N, (traverse c4map N "r").isSome = true ∧
      ∀ f, N ≤ f → traverse c4map f "r" = traverse c4map N "r" :=
  ⟨by decide, C9_termination c4map "r" c4measure (by decide)⟩

/-- C10 (author access is not defensive): if the main line visits a node
whose message has truthy content but no `author.role`, the traversal
raises `KeyError` (and `get_conversation_messages` propagates it) instead
of skipping the node or returning an empty sequence. -/
theorem C10_author_subscript (mapping : List (NodeId × Node)) (fuel : Nat)
    (root k : NodeId) (n : Node) (m : Message)
    (hchain : k ∈ visitChain mapping fuel root)
    (hl : lookup? mapping k = some n)
    (hm : n.message = some m)
    (hc : m.content.isSome = true)
    (ha : m.author.bind Author.role = none) :
    traverse mapping fuel root = some (.error .keyError) ∧
    (selectRoot mapping = .ok (some root) →
      ∀ title ct, get_conversation_messages fuel (some ⟨title, ct, some mapping⟩) =
        some (.error .keyError)) := by
  have hbad : renderNode n = .error .keyError :=
    renderNode_error_iff.mpr ⟨rfl, m, hm, hc, ha⟩
  have htrav := traverse_error_of_bad_chain hl hbad hchain
  refine ⟨htrav, ?_⟩
  intro hsel title ct
  simp only [get_conversation_messages, hsel, htrav]

/-- Witness for C10: in `c10map` the visited node `m` carries content but
no author, so the whole extraction errors with `KeyError`. -/
theorem C10_author_subscript_witness :
    traverse c10map 5 "r" = some (.error .keyError) ∧
    get_conversation_messages 5 (some ⟨some "T", some 1, some c10map⟩) =
      some (.error .keyError) := by
  have h := C10_author_subscript c10map 5 "r" "m"
    ⟨some "m", some "r", [], some noAuthorMsg⟩ noAuthorMsg
    (by decide) rfl rfl rfl rfl
  exact ⟨h.1, h.2 rfl (some "T") (some 1)⟩

/-- C1 (fallback root): on a mapping where every node has a non-null
parent (so the first scan finds nothing), with the data-model
well-formedness the spec assumes (each node's `id` field equals its
mapping key, and every message carries a `create_time`), the fallback
selects as root a node whose message has the smallest timestamp among
message-bearing nodes, and `get_conversation_messages` then runs the
traversal from that node. -/
theorem C1_fallback_root (mapping : List (NodeId × Node))
    (hparents : ∀ kn ∈ mapping, kn.2.parent.isSome = true)
    (hids : ∀ kn ∈ mapping, kn.2.id = some kn.1)
    (htimes : ∀ kn ∈ mapping, kn.2.message.isSome = true →
      (kn.2.message.bind Message.create_time).isSome = true)
    (hex : ∃ kn ∈ mapping, kn.2.message.isSome = true) :
    ∃ (k : NodeId) (n : Node) (m : Message) (t : Int),
      (k, n) ∈ mapping ∧ n.message = some m ∧ m.create_time = some t ∧
      (∀ kn ∈ mapping, ∀ m' t', kn.2.message = some m' → m'.create_time = some t' →
        t ≤ t') ∧
      selectRoot mapping = .ok (some k) ∧
      (∀ fuel title ct, get_conversation_messages fuel (some ⟨title, ct, some mapping⟩) =
        traverse mapping fuel k) := by
  have hfind := findRootByParent_eq_none hparents
  have hkeys : ∀ x ∈ msgNodes mapping, ∃ y, keyTime x = .ok y := by
    intro x hx
    obtain ⟨⟨k, hk⟩, hmsg⟩ := mem_msgNodes.mp hx
    obtain ⟨m, hm⟩ := Option.isSome_iff_exists.mp hmsg
    have ht := htimes (k, x) hk (by simpa using hmsg)
    rw [hm] at ht
    simp only [Option.some_bind] at ht
    obtain ⟨t, htt⟩ := Option.isSome_iff_exists.mp ht
    refine ⟨(t, x), ?_⟩
    unfold keyTime
    simp only [hm, htt]
  obtain ⟨keyed, hmapE, hlen, hfrom, hto⟩ := mapE_ok_of_forall hkeys
  obtain ⟨kn₀, hkn₀, hmsg₀⟩ := hex
  have hmem₀ : kn₀.2 ∈ msgNodes mapping :=
    mem_msgNodes.mpr ⟨⟨kn₀.1, by simpa using hkn₀⟩, hmsg₀⟩
  obtain ⟨y₀, hy₀, _⟩ := hto kn₀.2 hmem₀
  cases hsort : sortByTime keyed with
  | nil =>
    exfalso
    have hmm : y₀ ∈ sortByTime keyed := mem_sortByTime.mpr hy₀
    rw [hsort] at hmm
    simp at hmm
  | cons hd tl =>
    obtain ⟨tv, nv⟩ := hd
    obtain ⟨hhdmem, hhdmin⟩ := sortByTime_head_min hsort
    obtain ⟨x₀, hx₀mem, hx₀⟩ := hfrom (tv, nv) hhdmem
    obtain ⟨hsnd, m₀, hm₀, ht₀⟩ := keyTime_ok hx₀
    simp only at hsnd
    subst hsnd
    obtain ⟨⟨k₀, hk₀⟩, _⟩ := mem_msgNodes.mp hx₀mem
    have hid₀ : nv.id = some k₀ := hids (k₀, nv) hk₀
    have hfb : fallbackRoot mapping = .ok (some k₀) := by
      unfold fallbackRoot
      simp only [hmapE, hsort, hid₀]
    have hsel : selectRoot mapping = .ok (some k₀) := by
      unfold selectRoot
      simp only [hfind, hfb]
    refine ⟨k₀, nv, m₀, tv, hk₀, hm₀, ht₀, ?_, hsel, ?_⟩
    · intro kn hkn m' t' hm' ht'
      have hmemMsg : kn.2 ∈ msgNodes mapping :=
        mem_msgNodes.mpr ⟨⟨kn.1, by simpa using hkn⟩, by simp [hm']⟩
      obtain ⟨y', hy', hky'⟩ := hto kn.2 hmemMsg
      obtain ⟨hsnd', m'', hm'', ht''⟩ := keyTime_ok hky'
      rw [hm'] at hm''
      injection hm'' with hmm
      subst hmm
      rw [ht'] at ht''
      injection ht'' with htt
      have hmin := hhdmin y' hy'
      simp only at hmin
      rw [htt]
      exact hmin
    · intro fuel title ct
      simp only [get_conversation_messages, hsel]

/-- Witness for C1: in `c1map` every node has a non-null parent; the
earliest message (timestamp 3) sits on node `q`, which is selected as
the fallback root. -/
theorem C1_fallback_root_witness :
    (∀ kn ∈ c1map, kn.2.parent.isSome = true) ∧
    ∃ (k : NodeId) (n : Node) (m : Message) (t : Int),
      (k, n) ∈ c1map ∧ n.message = some m ∧ m.create_time = some t ∧
      (∀ kn ∈ c1map, ∀ m' t', kn.2.message = some m' → m'.create_time = some t' →
        t ≤ t') ∧
      selectRoot c1map = .ok (some k) ∧
      (∀ fuel title ct, get_conversation_messages fuel (some ⟨title, ct, some c1map⟩) =
        traverse c1map fuel k) :=
  ⟨by decide, C1_fallback_root c1map (by decide) (by decide) (by decide) (by decide)⟩

/-- C4 (main-line only): on a tree-shaped mapping (witnessed by a
positional labelling `L`) whose root has children `A :: B :: rest` with
both `A` and `B` having further descendants, the traversal visits the
chain `root :: (first-child line from A)`, a successful traversal's
output is exactly the blocks of that chain in order, and no node of `B`'s
subtree (itself included) is ever on the visited chain. -/
theorem C4_main_line_only (mapping : List (NodeId × Node)) (fuel : Nat)
    (root A B : NodeId) (rest : List NodeId) (rn nA nB : Node) (L : NodeId → List Nat)
    (hL : ∀ kn ∈ mapping, ∀ ic ∈ kn.2.children.enum, L ic.2 = L kn.1 ++ [ic.1])
    (hroot : lookup? mapping root = some rn)
    (hch : rn.children = A :: B :: rest)
    (hA : lookup? mapping A = some nA) (hAne : nA.children ≠ [])
    (hB : lookup? mapping B = some nB) (hBne : nB.children ≠ []) :
    (∀ f, visitChain mapping (f + 1) root = root :: visitChain mapping f A) ∧
    (∀ y, Reaches mapping B y → y ∉ visitChain mapping fuel root) ∧
    (∀ msgs, traverse mapping fuel root = some (.ok msgs) →
      msgs = (visitChain mapping fuel root).filterMap (blockOf mapping)) := by
  have hLA : L A = L root ++ [0] :=
    hL (root, rn) (lookup_mem hroot) (0, A) (by rw [hch]; simp [List.enum, List.enumFrom])
  have hLB : L B = L root ++ [1] :=
    hL (root, rn) (lookup_mem hroot) (1, B) (by rw [hch]; simp [List.enum, List.enumFrom])
  have hchain : ∀ f, visitChain mapping (f + 1) root = root :: visitChain mapping f A := by
    intro f
    simp only [visitChain, hroot, hch]
  refine ⟨hchain, ?_, fun msgs h => traverse_eq_filterMap h⟩
  intro y hy hmem
  obtain ⟨rB, hrB⟩ := reaches_label hL hy
  rw [hLB] at hrB
  cases fuel with
  | zero => simp [visitChain] at hmem
  | succ f =>
    rw [hchain f] at hmem
    rcases List.mem_cons.mp hmem with rfl | hmem'
    · have hlen := congrArg List.length hrB
      simp [List.length_append] at hlen
    · obtain ⟨rA, hrA⟩ := visitChain_label hL hmem'
      rw [hLA] at hrA
      rw [hrA] at hrB
      rw [List.append_assoc, List.append_assoc] at hrB
      have hcontr := List.append_cancel_left hrB
      simp at hcontr

/-- Witness for C4: in `c4map` the main line from `r` is `r, a, a1`;
neither `b` nor its child `b1` is on it, and the traversal output is the
blocks of the main line. -/
theorem C4_main_line_only_witness :
    ("b1" ∉ visitChain c4map 5 "r") ∧ ("b" ∉ visitChain c4map 5 "r") ∧
    ["## User\n\nfrom A\n\n---\n\n", "## User\n\nfrom A1\n\n---\n\n"] =
      (visitChain c4map 5 "r").filterMap (blockOf c4map) := by
  have h := C4_main_line_only c4map 5 "r" "a" "b" []
    ⟨some "r", none, ["a", "b"], none⟩
    ⟨some "a", some "r", ["a1"], some (userMsg "from A" 1)⟩
    ⟨some "b", some "r", ["b1"], some (userMsg "from B" 3)⟩
    c4label (by decide) rfl rfl rfl (by decide) rfl (by decide)
  refine ⟨?_, ?_, ?_⟩
  · exact h.2.1 "b1" (@Reaches.step c4map "b" "b" "b1"
      ⟨some "b", some "r", ["b1"], some (userMsg "from B" 3)⟩
      (Reaches.refl "b") (by decide) (by decide))
  · exact h.2.1 "b" (Reaches.refl "b")
  · exact h.2.2 _ rfl

/-- Counterexample to C2 as stated: in the archive `[c2bad, c2good]` the
first record raises `KeyError` during message extraction (its message has
content but no `author`), and the whole run aborts — `c2good`, processed
alone, would have been written, but it yields no outcome here. -/
theorem C2_counterexample :
    mainLoop 5 (fun _ => "T") (fun _ => true) [c2bad, c2good] =
      some ([], some .keyError) ∧
    mainLoop 5 (fun _ => "T") (fun _ => true) [c2good] =
      some ([.written "Good.md"], none) :=
  ⟨rfl, rfl⟩

/-- C2 as amended: only the file write of each record is guarded, so
per-file write failures (and skips) are isolated — whatever the write
oracle does, if no record raises during filename computation or message
extraction, the loop processes every record and never aborts. An
exception in those unguarded steps aborts the run. -/
theorem C2_write_failure_isolated (fuel : Nat) (dateStr : Int → String)
    (writeOk : String → Bool) (convos : List Convo)
    (h : ∀ c ∈ convos, ∃ r, recordStep fuel dateStr c = some (.ok r)) :
    ∃ outs, mainLoop fuel dateStr writeOk convos = some (outs, none) ∧
      outs.length = convos.length := by
  induction convos with
  | nil => exact ⟨[], rfl, rfl⟩
  | cons c cs ih =>
    obtain ⟨r, hr⟩ := h c (List.mem_cons_self _ _)
    obtain ⟨outs, houts, hlen⟩ := ih (fun z hz => h z (List.mem_cons_of_mem _ hz))
    cases r with
    | none =>
      refine ⟨.skipped :: outs, ?_, by simp [hlen]⟩
      simp only [mainLoop, processConvo, hr, houts]
    | some fname =>
      cases hw : writeOk fname with
      | true =>
        refine ⟨.written fname :: outs, ?_, by simp [hlen]⟩
        simp [mainLoop, processConvo, hr, houts, hw]
      | false =>
        refine ⟨.writeFailed fname :: outs, ?_, by simp [hlen]⟩
        simp [mainLoop, processConvo, hr, houts, hw]

/-- Witness for the amended C2: with a write oracle that fails every
write, the single-record archive `[c2good]` is still fully processed and
the run does not abort. -/
theorem C2_write_failure_isolated_witness :
    (∀ c ∈ [c2good], ∃ r, recordStep 5 (fun _ => "T") c = some (.ok r)) ∧
    ∃ outs, mainLoop 5 (fun _ => "T") (fun _ => false) [c2good] = some (outs, none) ∧
      outs.length = [c2good].length := by
  have hh : ∀ c ∈ [c2good], ∃ r, recordStep 5 (fun _ => "T") c = some (.ok r) := by
    intro c hc
    rw [List.mem_singleton] at hc
    subst hc
    exact ⟨some "Good.md", rfl⟩
  exact ⟨hh, C2_write_failure_isolated 5 (fun _ => "T") (fun _ => false) [c2good] hh⟩

end ChatMD
